import Mathlib

/-!
Verification of `get_nirspec_mos_info.py`, a JWST program-listing scraper.

The HTML fetch transport and the parse tree are external capabilities in the
original program (requests / BeautifulSoup).  They are embedded as plain data:
a parsed cell is its `get_text(strip=True)` result plus a flag recording
whether the cell contains an `<img>` element; a parsed row carries the list of
its `<th>` texts and its `<td>` cells; a table is its list of `<tr>` rows.
Python exceptions that the extraction logic itself can raise (`ValueError`
from `list.index`, `IndexError` from `rows[0]`, `requests.HTTPError` from
`raise_for_status`) are modelled with `Except` / an outcome type.
-/

namespace JwstExtractor

/-- A parsed table cell: its `get_text(strip=True)` text, and whether the cell
contains an embedded `<img>` element (used by the GTO extractor). -/
structure Cell where
  text : String
  hasImg : Bool
deriving DecidableEq

/-- A parsed `<tr>` row: the stripped texts of its `<th>` cells and its list
of `<td>` cells. -/
structure Row where
  th : List String
  td : List Cell
deriving DecidableEq

/-- A parsed `<table>`: its list of `<tr>` rows. -/
abbrev Table := List Row

/-- Python exceptions the extraction logic can raise. -/
inductive PyErr where
  | valueError
  | indexError
  | httpError
deriving DecidableEq

/-- Python `list.index`, as an `Option`: position of the first occurrence of
`s`. -/
def pyIndex (l : List String) (s : String) : Option Nat :=
  match l with
  | [] => none
  | a :: rest => if a = s then some 0 else (pyIndex rest s).map (· + 1)

/-- Python `s in l` for a list of strings. -/
def pyMem (s : String) (l : List String) : Bool :=
  (pyIndex l s).isSome

/-- Python `needle in hay` for strings: contiguous-substring test. -/
def pyIn (needle hay : String) : Bool :=
  hay.toList.tails.any (fun t => needle.toList.isPrefixOf t)

/-- The normalization `.replace('\n', '').replace('\r', '').replace(' ', '')`:
drop every newline, carriage return and space character. -/
def normalizeIM (s : String) : String :=
  String.mk (s.toList.filter (fun c => !(c = '\n' || c = '\r' || c = ' ')))

/-- Python `dict` update: replace the value at an existing key (keeping its
position), else append the binding. -/
def dictInsert (d : List (String × String)) (k v : String) :
    List (String × String) :=
  if d.any (fun p => p.1 = k) then
    d.map (fun p => if p.1 = k then (k, v) else p)
  else d ++ [(k, v)]

/-- Python `dict(zip(headers, row_data))`: left fold of `dictInsert` over the
pairs. -/
def pyDict (l : List (String × String)) : List (String × String) :=
  l.foldl (fun d p => dictInsert d p.1 p.2) []

/-- A status record: the `dict` mapping header name to cell text, as an
insertion-ordered association list. -/
abbrev StatusRecord := List (String × String)

/-! ## GO extractor (`extract_basic_info_from_GO`) -/

/-- The double-negative alias resolution of `extract_basic_info_from_GO`:
if `"Instrument/ Mode" not in headers` look up `"Instrument/Mode"`, else look
up `"Instrument/ Mode"`.  `none` means `list.index` raises `ValueError`. -/
def resolveGO (hs : List String) : Option Nat :=
  if pyMem "Instrument/ Mode" hs = false then pyIndex hs "Instrument/Mode"
  else pyIndex hs "Instrument/ Mode"

/-- One body row of the GO extractor: skip on cell-count mismatch, resolve the
instrument column (raising `ValueError` when neither alias is present),
normalize, test for the `"NIRSpec/MOS"` substring, and on a match emit the
stripped cell texts with the topic and cycle label appended.
`columns.get? i` is always `some` here since `i` indexes `hs` and
`columns.length = hs.length`; the `indexError` branch mirrors Python's
`columns[i]`. -/
def goProcessRow (cycle_number topic : String) (hs : List String) (r : Row) :
    Except PyErr (Option (List String)) :=
  let columns := r.td
  if columns.length ≠ hs.length then .ok none
  else
    match resolveGO hs with
    | none => .error .valueError
    | some i =>
      match columns.get? i with
      | none => .error .indexError
      | some c =>
        let instrument_mode := normalizeIM c.text
        if pyIn "NIRSpec/MOS" instrument_mode then
          .ok (some (columns.map Cell.text ++ [topic, cycle_number]))
        else .ok none

/-- The inner row loop of the GO extractor over the body rows of one table. -/
def goRows (cycle_number topic : String) (hs : List String) :
    List Row → Except PyErr (List (List String))
  | [] => .ok []
  | r :: rest =>
    match goProcessRow cycle_number topic hs r with
    | .error e => .error e
    | .ok none => goRows cycle_number topic hs rest
    | .ok (some rd) =>
      match goRows cycle_number topic hs rest with
      | .error e => .error e
      | .ok ds => .ok (rd :: ds)

/-- The `for topic, table in zip(topics, tables)` loop of the GO extractor,
threading the accumulated data and the once-set header list. -/
def goLoop (cycle_number : String) :
    List (String × Table) → List (List String) → Option (List String) →
    Except PyErr (List (List String) × Option (List String))
  | [], data, headers => .ok (data, headers)
  | (topic, table) :: rest, data, headers =>
    match table with
    | [] => goLoop cycle_number rest data headers
    | r0 :: drows =>
      let hs := headers.getD r0.th
      match goRows cycle_number topic hs drows with
      | .error e => .error e
      | .ok newrows => goLoop cycle_number rest (data ++ newrows) (some hs)

/-- The function `extract_basic_info_from_GO` on an already-fetched, parsed page:
`topics` are the `accordion__title-text` span texts, `tables` the parsed
tables, in document order. -/
def extract_basic_info_from_GO (topics : List String) (tables : List Table)
    (cycle_number : String) :
    Except PyErr (List (List String) × Option (List String)) :=
  goLoop cycle_number (topics.zip tables) [] none

/-! ## GTO extractor (`extract_basic_info_from_GTO`) -/

/-- Alias resolution of the GTO extractor: `"Instrument/Mode"` first, then
`"Instrument/ Mode"`, else `none` (the row is skipped, no exception). -/
def resolveGTO (hs : List String) : Option Nat :=
  if pyMem "Instrument/Mode" hs then pyIndex hs "Instrument/Mode"
  else if pyMem "Instrument/ Mode" hs then pyIndex hs "Instrument/ Mode"
  else none

/-- Emission of one matching GTO row: the stripped cell texts, with the
`"AR?"` cell replaced by the literal `"AR"` when that cell holds an `<img>`
element.  At every call site the resolved index is below `columns.length`, so
the `get?` fallback is never taken. -/
def gtoEmitRow (hs : List String) (columns : List Cell) : List String :=
  let row_data := columns.map Cell.text
  match pyIndex hs "AR?" with
  | none => row_data
  | some ar =>
    match columns.get? ar with
    | none => row_data
    | some c => if c.hasImg then row_data.set ar "AR" else row_data

/-- One body row of the GTO extractor: `none` when the row is skipped
(cell-count mismatch, no instrument column, or no substring match). -/
def gtoProcessRow (hs : List String) (r : Row) : Option (List String) :=
  let columns := r.td
  if columns.length ≠ hs.length then none
  else
    match resolveGTO hs with
    | none => none
    | some i =>
      match columns.get? i with
      | none => none
      | some c =>
        if pyIn "NIRSpec/MOS" c.text then some (gtoEmitRow hs columns)
        else none

/-- The table loop of the GTO extractor. -/
def gtoLoop :
    List Table → List (List String) → Option (List String) →
    List (List String) × Option (List String)
  | [], data, headers => (data, headers)
  | table :: rest, data, headers =>
    match table with
    | [] => gtoLoop rest data headers
    | r0 :: drows =>
      let hs := headers.getD r0.th
      gtoLoop rest (data ++ drows.filterMap (gtoProcessRow hs)) (some hs)

/-- The function `extract_basic_info_from_GTO` on an already-parsed page. -/
def extract_basic_info_from_GTO (tables : List Table) :
    List (List String) × Option (List String) :=
  gtoLoop tables [] none

/-! ## DDT extractor (`extract_basic_info_from_DDT`) -/

/-- One body row of the DDT extractor: keyed on the `"Instruments"` column,
match substring `"NIRSpec"`; rows are skipped (never raising) otherwise. -/
def ddtProcessRow (hs : List String) (r : Row) : Option (List String) :=
  let columns := r.td
  if columns.length ≠ hs.length then none
  else
    match pyIndex hs "Instruments" with
    | none => none
    | some i =>
      match columns.get? i with
      | none => none
      | some c =>
        if pyIn "NIRSpec" c.text then some (columns.map Cell.text)
        else none

/-- The table loop of the DDT extractor. -/
def ddtLoop :
    List Table → List (List String) → Option (List String) →
    List (List String) × Option (List String)
  | [], data, headers => (data, headers)
  | table :: rest, data, headers =>
    match table with
    | [] => ddtLoop rest data headers
    | r0 :: drows =>
      let hs := headers.getD r0.th
      ddtLoop rest (data ++ drows.filterMap (ddtProcessRow hs)) (some hs)

/-- The function `extract_basic_info_from_DDT` on an already-parsed page. -/
def extract_basic_info_from_DDT (tables : List Table) :
    List (List String) × Option (List String) :=
  ddtLoop tables [] none

/-! ## Status fetcher (`get_observation_status`) -/

/-- One body row of the status fetcher: skip on cell-count mismatch; keep the
`dict(zip(headers, row_data))` record when a `"Template"` column exists and
its cell contains `"NIRSpec MultiObject Spectroscopy"`.  The template index
is below `headers.length = row_data.length`, so `getD` never takes its
default. -/
def statusProcessRow (headers : List String) (ti : Option Nat) (r : Row) :
    Option StatusRecord :=
  let columns := r.td
  if columns.length ≠ headers.length then none
  else
    let row_data := columns.map Cell.text
    match ti with
    | none => none
    | some t =>
      if pyIn "NIRSpec MultiObject Spectroscopy" (row_data.getD t "") then
        some (pyDict (headers.zip row_data))
      else none

/-- The table loop of the status fetcher.  Headers come from the `<td>` cells
of `rows[0]` — an empty table raises `IndexError` (uncaught in the source).
A table with an empty header list contributes nothing.  Note the new headers
are filtered against `hdrs` as it stood BEFORE this table's batch is
appended, exactly as Python evaluates the comprehension before `extend`. -/
def statusTables :
    List Table → List StatusRecord → List String →
    Except PyErr (List StatusRecord × List String)
  | [], data, hdrs => .ok (data, hdrs)
  | table :: rest, data, hdrs =>
    match table with
    | [] => .error .indexError
    | r0 :: drows =>
      let headers := r0.td.map Cell.text
      if headers.isEmpty then statusTables rest data hdrs
      else
        let hdrs' := hdrs ++ headers.filter (fun h => !(pyMem h hdrs))
        let ti := pyIndex headers "Template"
        statusTables rest (data ++ drows.filterMap (statusProcessRow headers ti))
          hdrs'

/-- The extraction part of `get_observation_status` on a successfully fetched,
parsed page: `if not tables: return [], []`, else the table loop. -/
def statusExtract (tables : List Table) :
    Except PyErr (List StatusRecord × List String) :=
  if tables.isEmpty then .ok ([], [])
  else statusTables tables [] []

/-- Result of one fetch attempt of the status URL: a parsed page, a transport
failure caught by the retry loop (`requests.ConnectionError` /
`requests.Timeout`), or an HTTP status-code error raised by
`raise_for_status` (NOT caught by the retry loop). -/
inductive FetchResult where
  | ok (page : List Table)
  | timeout
  | httpError
deriving DecidableEq

/-- How a call of `get_observation_status` ends: a normal return, or an
uncaught Python exception. -/
inductive StatusOutcome where
  | ret (data : List StatusRecord) (hdrs : List String)
  | raised (e : PyErr)
deriving DecidableEq

/-- Outcome of processing one successfully fetched page. -/
def outcomeOfPage (page : List Table) : StatusOutcome :=
  match statusExtract page with
  | .ok (d, h) => .ret d h
  | .error e => .raised e

/-- The `while attempt < retries` loop of `get_observation_status`, with the
fetch transport abstracted as a stub mapping the attempt index to its result.
`fuel = retries - attempt`.  Returns the outcome paired with the total number
of fetch attempts performed.  A `timeout` result is caught and retried after
the backoff sleep; exhaustion returns two empty collections; `httpError`
propagates uncaught; a successful fetch returns the page's extraction
outcome immediately. -/
def statusLoop (fetch : Nat → FetchResult) :
    Nat → Nat → StatusOutcome × Nat
  | 0, attempt => (.ret [] [], attempt)
  | fuel + 1, attempt =>
    match fetch attempt with
    | .httpError => (.raised .httpError, attempt + 1)
    | .timeout => statusLoop fetch fuel (attempt + 1)
    | .ok page => (outcomeOfPage page, attempt + 1)

/-- The function `get_observation_status` with the fetch transport as a stub:
outcome and number of fetch attempts performed. -/
def get_observation_status (fetch : Nat → FetchResult) (retries : Nat) :
    StatusOutcome × Nat :=
  statusLoop fetch retries 0

/-! ## Reconciler (`check_csv`) -/

/-- The report printed by `check_csv`. -/
inductive CheckResult where
  | allChecked
  | missing (ids : Finset String)
deriving DecidableEq

/-! ## Concrete pages and auxiliary definitions used by the theorems -/

/-- A two-table GO page: the effective header list is set by table 0 (2
columns); table 1 has a 3-column header row of its own, yet its data row is
filtered against the effective (first-table) header count and emitted with
two extra appended cells. -/
def c3Topics : List String := ["T1", "T2"]

/-- Tables for the C3 counterexample page (see `c3Topics`). -/
def c3Tables : List Table :=
  [[⟨["Instrument/Mode", "ID"], []⟩],
   [⟨["A", "B", "C"], []⟩,
    ⟨[], [⟨"NIRSpec/MOS x", false⟩, ⟨"y", false⟩]⟩]]

/-- One-table DDT page whose headers contain neither instrument alias but do
contain `"Instruments"`, with a width-matching row mentioning NIRSpec. -/
def c10Tables : List Table :=
  [[⟨["Instruments"], []⟩, ⟨[], [⟨"NIRSpec/IFU", false⟩]⟩]]

/-- A status page with a single table whose header row repeats the name
`"A"`. -/
def c8Page : List Table := [[⟨[], [⟨"A", false⟩, ⟨"A", false⟩]⟩]]

/-- Modelled from the spec: merge a table's headers into the running ordered
vocabulary one name at a time, appending only names not already present. -/
def listUnion (acc hs : List String) : List String :=
  hs.foldl (fun a h => if pyMem h a then a else a ++ [h]) acc

/-- Modelled from the spec: the union of all header lists, in order of first
appearance. -/
def firstAppearanceUnion (ls : List (List String)) : List String :=
  ls.foldl listUnion []

/-- The header list of each table on a status page: the stripped `<td>` texts
of its first row. -/
def tableHeaderLists (tables : List Table) : List (List String) :=
  tables.filterMap (fun t => t.head?.map (fun r0 => r0.td.map Cell.text))

/-- Rename the header name `"Instrument/Mode"` to its whitespace variant
`"Instrument/ Mode"`, leaving every other name unchanged. -/
def renameIM (s : String) : String :=
  if s = "Instrument/Mode" then "Instrument/ Mode" else s

/-- Rename the header cells of a row; data cells are untouched. -/
def renameRow (r : Row) : Row := ⟨r.th.map renameIM, r.td⟩

/-- Rename the header cells of every row of a table. -/
def renameTable (t : Table) : Table := t.map renameRow

/-- Apply a renaming to the returned header list of a GO extraction result,
leaving data and errors unchanged. -/
def mapHdrsGO (f : String → String) :
    Except PyErr (List (List String) × Option (List String)) →
    Except PyErr (List (List String) × Option (List String))
  | .error e => .error e
  | .ok (d, h) => .ok (d, h.map (List.map f))

/-- Apply a renaming to the returned header list of a GTO/DDT extraction
result. -/
def mapHdrsPair (f : String → String) :
    List (List String) × Option (List String) →
    List (List String) × Option (List String)
  | (d, h) => (d, h.map (List.map f))

/-- The function `check_csv` on the two `ID` columns (CSV reading is external
I/O): report
full coverage when the first ID set is a subset of the second, else the
literal set difference. -/
def check_csv (df1id df2id : List String) : CheckResult :=
  if df1id.toFinset ⊆ df2id.toFinset then .allChecked
  else .missing (df1id.toFinset \ df2id.toFinset)

end JwstExtractor

namespace JwstExtractor

/-! ## Basic lemmas about the Python primitives -/

lemma pyIndex_lt_length {l : List String} {s : String} {i : Nat}
    (h : pyIndex l s = some i) : i < l.length := by
  induction l generalizing i with
  | nil => simp [pyIndex] at h
  | cons a rest ih =>
    rw [pyIndex] at h
    split at h
    · injection h with h
      subst h
      simp
    · rcases Option.map_eq_some'.mp h with ⟨j, hj, rfl⟩
      have := ih hj
      simp only [List.length_cons]
      omega

lemma pyMem_false_iff {s : String} {l : List String} :
    pyMem s l = false ↔ pyIndex l s = none := by
  unfold pyMem
  cases pyIndex l s <;> simp

lemma pyMem_cons_of_ne {s a : String} {rest : List String} (ha : a ≠ s) :
    pyMem s (a :: rest) = pyMem s rest := by
  unfold pyMem
  rw [pyIndex]
  simp only [ha, if_false]
  cases pyIndex rest s <;> simp

lemma pyMem_iff_mem {s : String} {l : List String} :
    pyMem s l = true ↔ s ∈ l := by
  induction l with
  | nil => simp [pyMem, pyIndex]
  | cons a rest ih =>
    by_cases ha : a = s
    · subst ha
      simp [pyMem, pyIndex]
    · rw [pyMem_cons_of_ne ha, ih]
      constructor
      · exact fun h => List.mem_cons_of_mem a h
      · intro h
        rcases List.mem_cons.mp h with h1 | h1
        · exact absurd h1.symm ha
        · exact h1

/-! ## The retry loop of the status fetcher -/

/-- Unfolding equation for one iteration of the retry loop. -/
lemma statusLoop_succ (fetch : Nat → FetchResult) (fuel attempt : Nat) :
    statusLoop fetch (fuel + 1) attempt =
      match fetch attempt with
      | .httpError => (.raised .httpError, attempt + 1)
      | .timeout => statusLoop fetch fuel (attempt + 1)
      | .ok page => (outcomeOfPage page, attempt + 1) := rfl

/-- When the first `k` fetch attempts (from `attempt` on) time out, the loop
just advances `k` steps. -/
lemma statusLoop_skip_timeouts (fetch : Nat → FetchResult) :
    ∀ (k fuel attempt : Nat), (∀ j, j < k → fetch (attempt + j) = .timeout) →
      statusLoop fetch (fuel + k) attempt = statusLoop fetch fuel (attempt + k)
  | 0, fuel, attempt, _ => rfl
  | k + 1, fuel, attempt, h => by
    have h0 : fetch attempt = .timeout := by
      have := h 0 (Nat.succ_pos k)
      simpa using this
    have step : statusLoop fetch (fuel + (k + 1)) attempt =
        statusLoop fetch (fuel + k) (attempt + 1) := by
      show statusLoop fetch ((fuel + k) + 1) attempt = _
      rw [statusLoop_succ, h0]
    rw [step, statusLoop_skip_timeouts fetch k fuel (attempt + 1)
      (fun j hj => by
        have := h (j + 1) (by omega)
        rw [show attempt + 1 + j = attempt + (j + 1) by omega]
        exact this)]
    rw [show attempt + 1 + k = attempt + (k + 1) by omega]

/-- If every attempt times out, the loop exhausts its fuel and returns two
empty collections, having fetched once per unit of fuel. -/
lemma statusLoop_all_timeout (fetch : Nat → FetchResult)
    (h : ∀ i, fetch i = .timeout) :
    ∀ fuel attempt, statusLoop fetch fuel attempt = (.ret [] [], attempt + fuel)
  | 0, attempt => by simp [statusLoop]
  | fuel + 1, attempt => by
    have step : statusLoop fetch (fuel + 1) attempt =
        statusLoop fetch fuel (attempt + 1) := by
      rw [statusLoop_succ, h attempt]
    rw [step, statusLoop_all_timeout fetch h fuel (attempt + 1)]
    congr 1
    omega

/-- C2: with retry budget 3, a fetch stub that times out on the first two
attempts and succeeds on the third makes the status fetcher return the
extraction outcome of the successfully fetched page after exactly 3 fetch
attempts; and for a stub that always times out, the fetcher makes exactly
`retries` fetch attempts and then returns two empty collections (a normal
return, not an exception). -/
theorem status_retry_budget :
    (∀ page : List Table,
      get_observation_status (fun i => if i < 2 then .timeout else .ok page) 3 =
        (outcomeOfPage page, 3)) ∧
    (∀ (fetch : Nat → FetchResult) (retries : Nat),
      (∀ i, fetch i = .timeout) →
      get_observation_status fetch retries = (.ret [] [], retries)) := by
  constructor
  · intro page
    rfl
  · intro fetch retries h
    unfold get_observation_status
    rw [statusLoop_all_timeout fetch h retries 0]
    simp

/-- Witness for C2: the always-timeout stub with budget 3 returns two empty
collections after 3 attempts. -/
theorem status_retry_budget_witness :
    get_observation_status (fun _ => .timeout) 3 = (.ret [] [], 3) :=
  status_retry_budget.2 (fun _ => .timeout) 3 (fun _ => rfl)

/-- C5: a fetch attempt that completes with a bad HTTP status code makes the
status fetcher raise immediately: if the first `k` attempts time out and
attempt `k` (still within the budget) yields an HTTP-status error, the
exception propagates out and the total number of fetch attempts is exactly
`k + 1` — the attempts made up to and including the erroring one. -/
theorem http_error_not_retried (fetch : Nat → FetchResult) (k retries : Nat)
    (hk : k < retries) (hpre : ∀ j, j < k → fetch j = .timeout)
    (hx : fetch k = .httpError) :
    get_observation_status fetch retries = (.raised .httpError, k + 1) := by
  unfold get_observation_status
  rw [show retries = (retries - k) + k from by omega,
    statusLoop_skip_timeouts fetch k (retries - k) 0
      (fun j hj => by simpa using hpre j hj)]
  obtain ⟨m, hm⟩ : ∃ m, retries - k = m + 1 := ⟨retries - k - 1, by omega⟩
  rw [hm]
  unfold statusLoop
  simp [hx]

/-- Witness for C5: timeout on attempt 0, HTTP-status error on attempt 1,
budget 3: the error propagates after exactly 2 fetch attempts. -/
theorem http_error_not_retried_witness :
    get_observation_status (fun i => if i = 0 then .timeout else .httpError) 3 =
      (.raised .httpError, 2) :=
  http_error_not_retried (fun i => if i = 0 then .timeout else .httpError) 1 3
    (by omega)
    (fun j hj => by
      have : j = 0 := by omega
      subst this
      rfl)
    rfl

/-- C6: once a fetch attempt succeeds, the status fetcher performs no further
fetch attempts, whatever the page contains: if the first `k` attempts time
out and attempt `k` (within the budget) returns a page, the call ends with
that page's extraction outcome after exactly `k + 1` fetch attempts.  In
particular a successfully fetched page with zero tables is a terminal
success whose outcome is two empty collections. -/
theorem successful_fetch_terminal :
    (∀ (fetch : Nat → FetchResult) (k retries : Nat) (page : List Table),
      k < retries → (∀ j, j < k → fetch j = .timeout) → fetch k = .ok page →
      get_observation_status fetch retries = (outcomeOfPage page, k + 1)) ∧
    outcomeOfPage [] = .ret [] [] := by
  constructor
  · intro fetch k retries page hk hpre hx
    unfold get_observation_status
    rw [show retries = (retries - k) + k from by omega,
      statusLoop_skip_timeouts fetch k (retries - k) 0
        (fun j hj => by simpa using hpre j hj)]
    obtain ⟨m, hm⟩ : ∃ m, retries - k = m + 1 := ⟨retries - k - 1, by omega⟩
    rw [hm]
    unfold statusLoop
    simp [hx]
  · rfl

/-- Witness for C6: a stub succeeding immediately with a zero-table page and
budget 3 returns two empty collections after exactly 1 fetch attempt. -/
theorem successful_fetch_terminal_witness :
    get_observation_status (fun _ => .ok []) 3 = (.ret [] [], 1) := by
  have h := successful_fetch_terminal.1 (fun _ => .ok []) 0 3 []
    (by omega) (fun j hj => absurd hj (by omega)) rfl
  rw [h, successful_fetch_terminal.2]

/-! ## The reconciler -/

/-- C7: the reconciler reports full coverage exactly when the first dataset's
ID set is a subset of the second's, and otherwise reports the literal set
difference (first minus second); concretely, IDs {1,2,3} against {1,2}
report the missing set {3}. -/
theorem check_csv_subset_difference :
    (∀ df1id df2id : List String,
      (df1id.toFinset ⊆ df2id.toFinset → check_csv df1id df2id = .allChecked) ∧
      (¬ df1id.toFinset ⊆ df2id.toFinset →
        check_csv df1id df2id =
          .missing (df1id.toFinset \ df2id.toFinset))) ∧
    check_csv ["1", "2", "3"] ["1", "2"] = .missing {"3"} := by
  refine ⟨fun df1id df2id => ⟨fun h => ?_, fun h => ?_⟩, by decide⟩
  · simp [check_csv, h]
  · simp [check_csv, h]

/-- Witness for C7: a concrete covered pair reports full coverage. -/
theorem check_csv_subset_difference_witness :
    check_csv ["1"] ["1", "2"] = .allChecked :=
  (check_csv_subset_difference.1 ["1"] ["1", "2"]).1 (by decide)

end JwstExtractor

namespace JwstExtractor

/-! ## Invariants of the extraction loops -/

/-- Every row returned by the GO row loop comes from processing some input
row. -/
lemma goRows_mem {cycle_number topic : String} {hs : List String} :
    ∀ {rows : List Row} {out : List (List String)},
      goRows cycle_number topic hs rows = .ok out →
      ∀ r ∈ out, ∃ row ∈ rows,
        goProcessRow cycle_number topic hs row = .ok (some r) := by
  intro rows
  induction rows with
  | nil =>
    intro out h r hr
    rw [goRows] at h
    injection h with h
    subst h
    simp at hr
  | cons row rest ih =>
    intro out h r hr
    rw [goRows] at h
    split at h
    · exact absurd h (by simp)
    next hp =>
      obtain ⟨row', hrow', hp'⟩ := ih h r hr
      exact ⟨row', List.mem_cons_of_mem _ hrow', hp'⟩
    next rd hp =>
      split at h
      · exact absurd h (by simp)
      next ds hds =>
        injection h with h
        subst h
        rcases List.mem_cons.mp hr with h1 | h1
        · subst h1
          exact ⟨row, List.mem_cons_self _ _, hp⟩
        · obtain ⟨row', hrow', hp'⟩ := ih hds r h1
          exact ⟨row', List.mem_cons_of_mem _ hrow', hp'⟩

/-- Main invariant of the GO table loop: the header list, once set, persists
to the end, and every returned row is either carried in from the accumulator
or satisfies any property `P` of the rows emitted by `goProcessRow` under the
final header list. -/
lemma goLoop_inv (cycle_number : String) (P : List String → List String → Prop)
    (hP : ∀ topic hs r out,
      goProcessRow cycle_number topic hs r = .ok (some out) → P hs out) :
    ∀ (l : List (String × Table)) (data : List (List String))
      (headers : Option (List String)) (dout : List (List String))
      (hend : Option (List String)),
      goLoop cycle_number l data headers = .ok (dout, hend) →
      (∀ hs, headers = some hs → hend = some hs) ∧
      (∀ r ∈ dout, r ∈ data ∨ ∃ hs, hend = some hs ∧ P hs r) := by
  intro l
  induction l with
  | nil =>
    intro data headers dout hend h
    have h' : (Except.ok (data, headers) :
        Except PyErr (List (List String) × Option (List String))) =
        .ok (dout, hend) := h
    injection h' with h'
    injection h' with h1 h2
    subst h1
    subst h2
    exact ⟨fun hs hhs => hhs, fun r hr => Or.inl hr⟩
  | cons p rest ih =>
    obtain ⟨topic, table⟩ := p
    intro data headers dout hend h
    cases table with
    | nil => exact ih data headers dout hend h
    | cons r0 drows =>
      have h' : (match goRows cycle_number topic (headers.getD r0.th) drows with
          | .error e =>
            (.error e : Except PyErr (List (List String) × Option (List String)))
          | .ok newrows =>
            goLoop cycle_number rest (data ++ newrows)
              (some (headers.getD r0.th))) = .ok (dout, hend) := h
      split at h'
      · exact absurd h' (by simp)
      next newrows hrows =>
        obtain ⟨hpers, hmem⟩ := ih (data ++ newrows) (some (headers.getD r0.th))
          dout hend h'
        have hend_eq : hend = some (headers.getD r0.th) := hpers _ rfl
        constructor
        · intro hs hhs
          subst hhs
          simpa using hend_eq
        · intro r hr
          rcases hmem r hr with h1 | h1
          · rcases List.mem_append.mp h1 with h2 | h2
            · exact Or.inl h2
            · refine Or.inr ⟨headers.getD r0.th, hend_eq, ?_⟩
              obtain ⟨row, _, hp⟩ := goRows_mem hrows r h2
              exact hP topic _ row r hp
          · exact Or.inr h1

/-- Main invariant of the GTO table loop (analogue of `goLoop_inv`). -/
lemma gtoLoop_inv (P : List String → List String → Prop)
    (hP : ∀ hs r out, gtoProcessRow hs r = some out → P hs out) :
    ∀ (l : List Table) (data : List (List String))
      (headers : Option (List String)) (dout : List (List String))
      (hend : Option (List String)),
      gtoLoop l data headers = (dout, hend) →
      (∀ hs, headers = some hs → hend = some hs) ∧
      (∀ r ∈ dout, r ∈ data ∨ ∃ hs, hend = some hs ∧ P hs r) := by
  intro l
  induction l with
  | nil =>
    intro data headers dout hend h
    have h' : (data, headers) = (dout, hend) := h
    injection h' with h1 h2
    subst h1
    subst h2
    exact ⟨fun hs hhs => hhs, fun r hr => Or.inl hr⟩
  | cons table rest ih =>
    intro data headers dout hend h
    cases table with
    | nil => exact ih data headers dout hend h
    | cons r0 drows =>
      obtain ⟨hpers, hmem⟩ := ih (data ++ drows.filterMap
          (gtoProcessRow (headers.getD r0.th)))
        (some (headers.getD r0.th)) dout hend h
      have hend_eq : hend = some (headers.getD r0.th) := hpers _ rfl
      constructor
      · intro hs hhs
        subst hhs
        simpa using hend_eq
      · intro r hr
        rcases hmem r hr with h1 | h1
        · rcases List.mem_append.mp h1 with h2 | h2
          · exact Or.inl h2
          · refine Or.inr ⟨headers.getD r0.th, hend_eq, ?_⟩
            obtain ⟨row, _, hp⟩ := List.mem_filterMap.mp h2
            exact hP _ row r hp
        · exact Or.inr h1

/-- Main invariant of the DDT table loop (analogue of `goLoop_inv`). -/
lemma ddtLoop_inv (P : List String → List String → Prop)
    (hP : ∀ hs r out, ddtProcessRow hs r = some out → P hs out) :
    ∀ (l : List Table) (data : List (List String))
      (headers : Option (List String)) (dout : List (List String))
      (hend : Option (List String)),
      ddtLoop l data headers = (dout, hend) →
      (∀ hs, headers = some hs → hend = some hs) ∧
      (∀ r ∈ dout, r ∈ data ∨ ∃ hs, hend = some hs ∧ P hs r) := by
  intro l
  induction l with
  | nil =>
    intro data headers dout hend h
    have h' : (data, headers) = (dout, hend) := h
    injection h' with h1 h2
    subst h1
    subst h2
    exact ⟨fun hs hhs => hhs, fun r hr => Or.inl hr⟩
  | cons table rest ih =>
    intro data headers dout hend h
    cases table with
    | nil => exact ih data headers dout hend h
    | cons r0 drows =>
      obtain ⟨hpers, hmem⟩ := ih (data ++ drows.filterMap
          (ddtProcessRow (headers.getD r0.th)))
        (some (headers.getD r0.th)) dout hend h
      have hend_eq : hend = some (headers.getD r0.th) := hpers _ rfl
      constructor
      · intro hs hhs
        subst hhs
        simpa using hend_eq
      · intro r hr
        rcases hmem r hr with h1 | h1
        · rcases List.mem_append.mp h1 with h2 | h2
          · exact Or.inl h2
          · refine Or.inr ⟨headers.getD r0.th, hend_eq, ?_⟩
            obtain ⟨row, _, hp⟩ := List.mem_filterMap.mp h2
            exact hP _ row r hp
        · exact Or.inr h1

end JwstExtractor

namespace JwstExtractor

/-! ## Shape of emitted rows -/

/-- A row emitted by the GO extractor carries, at the resolved instrument
index, a cell whose normalization contains the filter substring. -/
lemma goProcessRow_emitted {cycle_number topic : String} {hs : List String}
    {r : Row} {out : List String}
    (h : goProcessRow cycle_number topic hs r = .ok (some out)) :
    ∃ i, resolveGO hs = some i ∧
      ∃ c, out.get? i = some c ∧ pyIn "NIRSpec/MOS" (normalizeIM c) = true := by
  simp only [goProcessRow] at h
  split at h
  · exact absurd h (by simp)
  · split at h
    · exact absurd h (by simp)
    next i hres =>
      split at h
      · exact absurd h (by simp)
      next c hget =>
        split at h
        next hin =>
          injection h with h
          injection h with h
          subst h
          refine ⟨i, hres, c.text, ?_, hin⟩
          have hlt : i < r.td.length := by
            by_contra hge
            rw [List.get?_eq_none.mpr (by omega)] at hget
            exact absurd hget (by simp)
          rw [List.get?_append (by simpa using hlt), List.get?_map, hget]
          rfl
        · exact absurd h (by simp)

/-- A row emitted by the GO extractor has the effective header count plus the
two appended fields. -/
lemma goProcessRow_emitted_length {cycle_number topic : String}
    {hs : List String} {r : Row} {out : List String}
    (h : goProcessRow cycle_number topic hs r = .ok (some out)) :
    out.length = hs.length + 2 := by
  simp only [goProcessRow] at h
  split at h
  · exact absurd h (by simp)
  next hlen =>
    rw [not_ne_iff] at hlen
    split at h
    · exact absurd h (by simp)
    next i hres =>
      split at h
      · exact absurd h (by simp)
      next c hget =>
        split at h
        next hin =>
          injection h with h
          injection h with h
          subst h
          simp [hlen]
        · exact absurd h (by simp)

/-- A row emitted by the DDT extractor carries, at the `"Instruments"` index,
a cell text containing `"NIRSpec"`. -/
lemma ddtProcessRow_emitted {hs : List String} {r : Row} {out : List String}
    (h : ddtProcessRow hs r = some out) :
    ∃ i, pyIndex hs "Instruments" = some i ∧
      ∃ c, out.get? i = some c ∧ pyIn "NIRSpec" c = true := by
  simp only [ddtProcessRow] at h
  split at h
  · exact absurd h (by simp)
  · split at h
    · exact absurd h (by simp)
    next i hres =>
      split at h
      · exact absurd h (by simp)
      next c hget =>
        split at h
        next hin =>
          injection h with h
          subst h
          refine ⟨i, hres, c.text, ?_, hin⟩
          rw [List.get?_map, hget]
          rfl
        · exact absurd h (by simp)

/-- A row emitted by the GTO extractor is `gtoEmitRow` of a full-width cell
list. -/
lemma gtoProcessRow_emitted {hs : List String} {r : Row} {out : List String}
    (h : gtoProcessRow hs r = some out) :
    r.td.length = hs.length ∧ out = gtoEmitRow hs r.td := by
  simp only [gtoProcessRow] at h
  split at h
  · exact absurd h (by simp)
  next hlen =>
    rw [not_ne_iff] at hlen
    split at h
    · exact absurd h (by simp)
    next i hres =>
      split at h
      · exact absurd h (by simp)
      next c hget =>
        split at h
        next hin =>
          injection h with h
          exact ⟨hlen, h.symm⟩
        · exact absurd h (by simp)

/-- Replacing the AR cell does not change the emitted row's width. -/
lemma gtoEmitRow_length (hs : List String) (columns : List Cell) :
    (gtoEmitRow hs columns).length = columns.length := by
  simp only [gtoEmitRow]
  split
  · simp
  · split
    · simp
    · split <;> simp

/-- C1: every row in the data returned by `extract_basic_info_from_GO` has,
at the instrument index resolved from the effective header list, a cell whose
text with newlines, carriage returns and spaces removed contains the
substring `"NIRSpec/MOS"`; every row returned by
`extract_basic_info_from_DDT` has, at the `"Instruments"` index of the
effective header list, a stripped cell text containing `"NIRSpec"`.  No row
failing the respective test is present. -/
theorem emitted_rows_contain_filter_substring :
    (∀ (topics : List String) (tables : List Table) (cycle_number : String)
       (data : List (List String)) (hs : List String),
      extract_basic_info_from_GO topics tables cycle_number =
        .ok (data, some hs) →
      ∀ r ∈ data, ∃ i, resolveGO hs = some i ∧
        ∃ c, r.get? i = some c ∧ pyIn "NIRSpec/MOS" (normalizeIM c) = true) ∧
    (∀ (tables : List Table) (data : List (List String)) (hs : List String),
      extract_basic_info_from_DDT tables = (data, some hs) →
      ∀ r ∈ data, ∃ i, pyIndex hs "Instruments" = some i ∧
        ∃ c, r.get? i = some c ∧ pyIn "NIRSpec" c = true) := by
  constructor
  · intro topics tables cycle_number data hs h r hr
    have hinv := goLoop_inv cycle_number
      (fun hs' out => ∃ i, resolveGO hs' = some i ∧
        ∃ c, out.get? i = some c ∧ pyIn "NIRSpec/MOS" (normalizeIM c) = true)
      (fun _ _ _ _ hp => goProcessRow_emitted hp)
      (topics.zip tables) [] none data (some hs) h
    rcases hinv.2 r hr with h1 | ⟨hs', hhs', hprop⟩
    · simp at h1
    · injection hhs' with hhs'
      subst hhs'
      exact hprop
  · intro tables data hs h r hr
    have hinv := ddtLoop_inv
      (fun hs' out => ∃ i, pyIndex hs' "Instruments" = some i ∧
        ∃ c, out.get? i = some c ∧ pyIn "NIRSpec" c = true)
      (fun _ _ _ hp => ddtProcessRow_emitted hp)
      tables [] none data (some hs) h
    rcases hinv.2 r hr with h1 | ⟨hs', hhs', hprop⟩
    · simp at h1
    · injection hhs' with hhs'
      subst hhs'
      exact hprop

/-- Witness for C1: the spec's own example page, with its one emitted row. -/
theorem emitted_rows_contain_filter_substring_witness :
    ∃ i, resolveGO ["Instrument/Mode", "PI", "ID"] = some i ∧
      ∃ c, (["NIRSpec/MOS Prism", "Smith", "GO-001", "Topic A", "Cycle 1"] :
          List String).get? i = some c ∧
        pyIn "NIRSpec/MOS" (normalizeIM c) = true :=
  emitted_rows_contain_filter_substring.1 ["Topic A"]
    [[⟨["Instrument/Mode", "PI", "ID"], []⟩,
      ⟨[], [⟨"NIRSpec/MOS Prism", false⟩, ⟨"Smith", false⟩,
        ⟨"GO-001", false⟩]⟩]]
    "Cycle 1" [["NIRSpec/MOS Prism", "Smith", "GO-001", "Topic A", "Cycle 1"]]
    ["Instrument/Mode", "PI", "ID"] rfl
    ["NIRSpec/MOS Prism", "Smith", "GO-001", "Topic A", "Cycle 1"]
    (List.mem_singleton.mpr rfl)

end JwstExtractor

namespace JwstExtractor

/-! ## Row widths versus header counts -/

/-- A row emitted by the DDT extractor is the stripped texts of a full-width
cell list. -/
lemma ddtProcessRow_shape {hs : List String} {r : Row} {out : List String}
    (h : ddtProcessRow hs r = some out) :
    r.td.length = hs.length ∧ out = r.td.map Cell.text := by
  simp only [ddtProcessRow] at h
  split at h
  · exact absurd h (by simp)
  next hlen =>
    rw [not_ne_iff] at hlen
    split at h
    · exact absurd h (by simp)
    · split at h
      · exact absurd h (by simp)
      · split at h
        · injection h with h
          exact ⟨hlen, h.symm⟩
        · exact absurd h (by simp)

/-- Counterexample to C3 as stated: the single emitted row has 4 cells, while
the header row of the table it came from (table index 1 of `c3Tables`, the
only table with a data row) has 3 names — and even the row's own `<td>` count
is 2, matching the first table's header count instead. -/
theorem row_header_count_cex :
    extract_basic_info_from_GO c3Topics c3Tables "C1" =
      .ok ([["NIRSpec/MOS x", "y", "T2", "C1"]],
        some ["Instrument/Mode", "ID"]) ∧
    (["NIRSpec/MOS x", "y", "T2", "C1"] : List String).length = 4 ∧
    ((c3Tables.getD 1 []).headD ⟨[], []⟩).th.length = 3 ∧
    (4 : Nat) ≠ 3 :=
  ⟨rfl, rfl, rfl, by omega⟩

/-- C3 (amended): row widths are governed by the effective header list — the
first non-skipped table's headers — not by the header count of the row's own
table.  Every row returned by the GTO and DDT extractors has exactly the
effective header count of cells; every GO row has that count plus the two
appended topic/cycle cells; and the status fetcher turns a row into a record
only when the row's cell count equals its own table's header count. -/
theorem row_length_vs_effective_headers :
    (∀ (topics : List String) (tables : List Table) (cycle_number : String)
       (data : List (List String)) (hs : List String),
      extract_basic_info_from_GO topics tables cycle_number =
        .ok (data, some hs) →
      ∀ r ∈ data, r.length = hs.length + 2) ∧
    (∀ (tables : List Table) (data : List (List String)) (hs : List String),
      extract_basic_info_from_GTO tables = (data, some hs) →
      ∀ r ∈ data, r.length = hs.length) ∧
    (∀ (tables : List Table) (data : List (List String)) (hs : List String),
      extract_basic_info_from_DDT tables = (data, some hs) →
      ∀ r ∈ data, r.length = hs.length) ∧
    (∀ (headers : List String) (ti : Option Nat) (r : Row)
       (record : StatusRecord),
      statusProcessRow headers ti r = some record →
      r.td.length = headers.length) := by
  refine ⟨?_, ?_, ?_, ?_⟩
  · intro topics tables cycle_number data hs h r hr
    have hinv := goLoop_inv cycle_number
      (fun hs' out => out.length = hs'.length + 2)
      (fun _ _ _ _ hp => goProcessRow_emitted_length hp)
      (topics.zip tables) [] none data (some hs) h
    rcases hinv.2 r hr with h1 | ⟨hs', hhs', hprop⟩
    · simp at h1
    · injection hhs' with hhs'
      subst hhs'
      exact hprop
  · intro tables data hs h r hr
    have hinv := gtoLoop_inv (fun hs' out => out.length = hs'.length)
      (fun hs' row out hp => by
        obtain ⟨hlen, hout⟩ := gtoProcessRow_emitted hp
        rw [hout, gtoEmitRow_length, hlen])
      tables [] none data (some hs) h
    rcases hinv.2 r hr with h1 | ⟨hs', hhs', hprop⟩
    · simp at h1
    · injection hhs' with hhs'
      subst hhs'
      exact hprop
  · intro tables data hs h r hr
    have hinv := ddtLoop_inv (fun hs' out => out.length = hs'.length)
      (fun hs' row out hp => by
        obtain ⟨hlen, hout⟩ := ddtProcessRow_shape hp
        rw [hout, List.length_map, hlen])
      tables [] none data (some hs) h
    rcases hinv.2 r hr with h1 | ⟨hs', hhs', hprop⟩
    · simp at h1
    · injection hhs' with hhs'
      subst hhs'
      exact hprop
  · intro headers ti r record h
    simp only [statusProcessRow] at h
    split at h
    · exact absurd h (by simp)
    next hlen =>
      rw [not_ne_iff] at hlen
      exact hlen

/-- Witness for C3 (amended): on the counterexample page, the emitted row's
length is the effective header count plus 2. -/
theorem row_length_vs_effective_headers_witness :
    (["NIRSpec/MOS x", "y", "T2", "C1"] : List String).length =
      (["Instrument/Mode", "ID"] : List String).length + 2 :=
  row_length_vs_effective_headers.1 c3Topics c3Tables "C1"
    [["NIRSpec/MOS x", "y", "T2", "C1"]] ["Instrument/Mode", "ID"] rfl
    ["NIRSpec/MOS x", "y", "T2", "C1"] (List.mem_singleton.mpr rfl)

end JwstExtractor

namespace JwstExtractor

/-- C9: every row emitted by `extract_basic_info_from_GTO` is `gtoEmitRow` of
the row's full-width cell list under the effective header list; and
`gtoEmitRow` replaces the cell at the `"AR?"` column's index with the literal
`"AR"` exactly when the header list has an `"AR?"` column and that cell
carries an embedded image element, leaving the stripped cell texts unchanged
otherwise (no `"AR?"` column, or no image in the cell). -/
theorem gto_ar_marker :
    (∀ (tables : List Table) (data : List (List String)) (hs : List String),
      extract_basic_info_from_GTO tables = (data, some hs) →
      ∀ r ∈ data, ∃ columns : List Cell,
        columns.length = hs.length ∧ r = gtoEmitRow hs columns) ∧
    (∀ (hs : List String) (columns : List Cell),
      (pyIndex hs "AR?" = none → gtoEmitRow hs columns = columns.map Cell.text) ∧
      (∀ i c, pyIndex hs "AR?" = some i → columns.get? i = some c →
        gtoEmitRow hs columns =
          if c.hasImg then (columns.map Cell.text).set i "AR"
          else columns.map Cell.text)) := by
  constructor
  · intro tables data hs h r hr
    have hinv := gtoLoop_inv
      (fun hs' out => ∃ columns : List Cell,
        columns.length = hs'.length ∧ out = gtoEmitRow hs' columns)
      (fun hs' row out hp => by
        obtain ⟨hlen, hout⟩ := gtoProcessRow_emitted hp
        exact ⟨row.td, hlen, hout⟩)
      tables [] none data (some hs) h
    rcases hinv.2 r hr with h1 | ⟨hs', hhs', hprop⟩
    · simp at h1
    · injection hhs' with hhs'
      subst hhs'
      exact hprop
  · intro hs columns
    constructor
    · intro h
      simp only [gtoEmitRow, h]
    · intro i c h1 h2
      simp only [gtoEmitRow, h1, h2]

/-- Witness for C9: a one-table GTO page whose matching row has an image in
its `"AR?"` cell; the emitted row is `gtoEmitRow` of the source cells. -/
theorem gto_ar_marker_witness :
    ∃ columns : List Cell,
      columns.length = (["Instrument/Mode", "AR?"] : List String).length ∧
      (["NIRSpec/MOS", "AR"] : List String) =
        gtoEmitRow ["Instrument/Mode", "AR?"] columns :=
  gto_ar_marker.1
    [[⟨["Instrument/Mode", "AR?"], []⟩,
      ⟨[], [⟨"NIRSpec/MOS", false⟩, ⟨"icon", true⟩]⟩]]
    [["NIRSpec/MOS", "AR"]] ["Instrument/Mode", "AR?"] rfl
    ["NIRSpec/MOS", "AR"] (List.mem_singleton.mpr rfl)

end JwstExtractor

namespace JwstExtractor

/-! ## Behavior when the instrument column is missing -/

lemma pyMem_eq_false_iff {s : String} {l : List String} :
    pyMem s l = false ↔ s ∉ l := by
  rw [← pyMem_iff_mem]
  cases pyMem s l <;> simp

/-- With neither alias in the headers, the GO resolution fails (Python's
`list.index` raises `ValueError`). -/
lemma resolveGO_none {hs : List String}
    (hplain : pyMem "Instrument/Mode" hs = false)
    (hspaced : pyMem "Instrument/ Mode" hs = false) :
    resolveGO hs = none := by
  unfold resolveGO
  rw [hspaced, if_pos rfl]
  exact pyMem_false_iff.mp hplain

/-- With neither alias in the headers, the GTO resolution returns `none` (the
row is skipped). -/
lemma resolveGTO_none {hs : List String}
    (hplain : pyMem "Instrument/Mode" hs = false)
    (hspaced : pyMem "Instrument/ Mode" hs = false) :
    resolveGTO hs = none := by
  unfold resolveGTO
  rw [hplain, hspaced]
  rfl

/-- When the GO resolution fails and some body row has matching width, the GO
row loop raises `ValueError`. -/
lemma goRows_valueError {cycle_number topic : String} {hs : List String}
    (hres : resolveGO hs = none) :
    ∀ {drows : List Row}, (∃ r ∈ drows, r.td.length = hs.length) →
      goRows cycle_number topic hs drows = .error .valueError := by
  intro drows
  induction drows with
  | nil =>
    intro h
    simp at h
  | cons r rest ih =>
    intro h
    rw [goRows]
    by_cases hlen : r.td.length = hs.length
    · have hstep : goProcessRow cycle_number topic hs r = .error .valueError := by
        simp only [goProcessRow]
        rw [if_neg (not_ne_iff.mpr hlen), hres]
      rw [hstep]
    · have hrest : ∃ r' ∈ rest, r'.td.length = hs.length := by
        obtain ⟨r', hr', hlen'⟩ := h
        rcases List.mem_cons.mp hr' with h1 | h1
        · subst h1
          exact absurd hlen' hlen
        · exact ⟨r', h1, hlen'⟩
      have hskip : goProcessRow cycle_number topic hs r = .ok none := by
        simp only [goProcessRow]
        rw [if_pos hlen]
      rw [hskip]
      exact ih hrest

/-- When the GTO resolution fails, every row is skipped. -/
lemma gtoProcessRow_none {hs : List String} (hres : resolveGTO hs = none)
    (r : Row) : gtoProcessRow hs r = none := by
  simp only [gtoProcessRow, hres]
  split <;> rfl

/-- When `"Instruments"` is absent, every DDT row is skipped. -/
lemma ddtProcessRow_none {hs : List String}
    (hres : pyMem "Instruments" hs = false) (r : Row) :
    ddtProcessRow hs r = none := by
  simp only [ddtProcessRow, pyMem_false_iff.mp hres]
  split <;> rfl

/-- C10 (amended): on a one-table page whose effective header list contains
neither `"Instrument/Mode"` nor `"Instrument/ Mode"` and which has a body row
of matching width, `extract_basic_info_from_GO` raises the failed-lookup
exception (`ValueError`); `extract_basic_info_from_GTO` skips all such rows
and returns normally with empty data; and `extract_basic_info_from_DDT`
returns normally and skips all such rows provided `"Instruments"` is also
absent (its filter is keyed on `"Instruments"`, not on the aliases). -/
theorem missing_alias_raises_or_skips
    (r0 : Row) (drows : List Row) (topic cycle_number : String)
    (hplain : pyMem "Instrument/Mode" r0.th = false)
    (hspaced : pyMem "Instrument/ Mode" r0.th = false)
    (hrow : ∃ r ∈ drows, r.td.length = r0.th.length) :
    extract_basic_info_from_GO [topic] [r0 :: drows] cycle_number =
      .error .valueError ∧
    extract_basic_info_from_GTO [r0 :: drows] = ([], some r0.th) ∧
    (pyMem "Instruments" r0.th = false →
      extract_basic_info_from_DDT [r0 :: drows] = ([], some r0.th)) := by
  refine ⟨?_, ?_, ?_⟩
  · have h1 : goRows cycle_number topic r0.th drows = .error .valueError :=
      goRows_valueError (resolveGO_none hplain hspaced) hrow
    have h2 : extract_basic_info_from_GO [topic] [r0 :: drows] cycle_number =
        (match goRows cycle_number topic r0.th drows with
         | .error e =>
           (.error e : Except PyErr (List (List String) × Option (List String)))
         | .ok newrows =>
           goLoop cycle_number [] ([] ++ newrows) (some r0.th)) := rfl
    rw [h2, h1]
  · have hfm : drows.filterMap (gtoProcessRow r0.th) = [] :=
      List.filterMap_eq_nil.mpr
        (fun r _ => gtoProcessRow_none (resolveGTO_none hplain hspaced) r)
    have h2 : extract_basic_info_from_GTO [r0 :: drows] =
        (([] ++ drows.filterMap (gtoProcessRow r0.th) : List (List String)),
          some r0.th) := rfl
    rw [h2, hfm]
    rfl
  · intro hinst
    have hfm : drows.filterMap (ddtProcessRow r0.th) = [] :=
      List.filterMap_eq_nil.mpr (fun r _ => ddtProcessRow_none hinst r)
    have h2 : extract_basic_info_from_DDT [r0 :: drows] =
        (([] ++ drows.filterMap (ddtProcessRow r0.th) : List (List String)),
          some r0.th) := rfl
    rw [h2, hfm]
    rfl

/-- Witness for C10 (amended): a concrete alias-free one-table page. -/
theorem missing_alias_raises_or_skips_witness :
    extract_basic_info_from_GO ["T"]
      [[⟨["A", "B"], []⟩, ⟨[], [⟨"x", false⟩, ⟨"y", false⟩]⟩]] "C" =
      .error .valueError ∧
    extract_basic_info_from_GTO
      [[⟨["A", "B"], []⟩, ⟨[], [⟨"x", false⟩, ⟨"y", false⟩]⟩]] =
      ([], some ["A", "B"]) ∧
    (pyMem "Instruments" (Row.mk ["A", "B"] []).th = false →
      extract_basic_info_from_DDT
        [[⟨["A", "B"], []⟩, ⟨[], [⟨"x", false⟩, ⟨"y", false⟩]⟩]] =
        ([], some ["A", "B"])) :=
  missing_alias_raises_or_skips ⟨["A", "B"], []⟩
    [⟨[], [⟨"x", false⟩, ⟨"y", false⟩]⟩] "T" "C" (by decide) (by decide)
    ⟨⟨[], [⟨"x", false⟩, ⟨"y", false⟩]⟩, List.mem_singleton.mpr rfl, rfl⟩

/-- Counterexample to C10 as stated: on `c10Tables` the effective headers
contain neither alias and the data row's cell count (1) matches the header
count (1), yet `extract_basic_info_from_DDT` does NOT skip the row — it
emits it, because its filter reads the `"Instruments"` column. -/
theorem missing_alias_ddt_cex :
    pyMem "Instrument/Mode" ["Instruments"] = false ∧
    pyMem "Instrument/ Mode" ["Instruments"] = false ∧
    ([(⟨"NIRSpec/IFU", false⟩ : Cell)] : List Cell).length =
      (["Instruments"] : List String).length ∧
    extract_basic_info_from_DDT c10Tables =
      ([["NIRSpec/IFU"]], some ["Instruments"]) :=
  ⟨by decide, by decide, rfl, rfl⟩

end JwstExtractor

namespace JwstExtractor

/-! ## The status fetcher's header vocabulary -/

lemma pyMem_append_single {x h : String} {acc : List String} (hne : x ≠ h) :
    pyMem x (acc ++ [h]) = pyMem x acc := by
  cases hb : pyMem x acc
  · rw [pyMem_eq_false_iff] at hb
    rw [pyMem_eq_false_iff]
    simp [hb, hne]
  · rw [pyMem_iff_mem] at hb
    rw [pyMem_iff_mem]
    simp [hb]

/-- On a duplicate-free header list, the source's batch filter against the
pre-merge vocabulary agrees with the element-at-a-time union. -/
lemma listUnion_eq_append_filter :
    ∀ (hs : List String), hs.Nodup →
      ∀ acc, listUnion acc hs = acc ++ hs.filter (fun h => !(pyMem h acc))
  | [], _, acc => by simp [listUnion]
  | h :: t, hnd, acc => by
    rw [List.nodup_cons] at hnd
    obtain ⟨hnotin, hndt⟩ := hnd
    show listUnion (if pyMem h acc then acc else acc ++ [h]) t = _
    cases hb : pyMem h acc
    · rw [if_neg (by simp [hb])]
      rw [listUnion_eq_append_filter t hndt (acc ++ [h])]
      rw [List.filter_cons, if_pos (by simp [hb])]
      rw [List.filter_congr (fun x hx => by
        have hne : x ≠ h := fun he => hnotin (he ▸ hx)
        rw [pyMem_append_single hne])]
      simp
    · rw [if_pos rfl]
      rw [listUnion_eq_append_filter t hndt acc]
      rw [List.filter_cons, if_neg (by simp [hb])]

lemma listUnion_nodup :
    ∀ (hs acc : List String), acc.Nodup → (listUnion acc hs).Nodup
  | [], _, h => h
  | h :: t, acc, hacc => by
    show (listUnion (if pyMem h acc then acc else acc ++ [h]) t).Nodup
    cases hb : pyMem h acc
    · rw [if_neg (by simp [hb])]
      refine listUnion_nodup t _ ?_
      have hnotin : h ∉ acc := pyMem_eq_false_iff.mp hb
      simp [List.nodup_append, hacc, hnotin]
    · rw [if_pos rfl]
      exact listUnion_nodup t acc hacc

lemma foldl_listUnion_nodup :
    ∀ (L : List (List String)) (acc : List String),
      acc.Nodup → (L.foldl listUnion acc).Nodup
  | [], _, h => h
  | hs :: L, acc, h =>
    foldl_listUnion_nodup L (listUnion acc hs) (listUnion_nodup hs acc h)

/-- Header accumulation across the status fetcher's table loop: provided each
table's own header row is duplicate-free, the final vocabulary is the left
fold of the per-element union over the tables' header lists. -/
lemma statusTables_headers :
    ∀ (tables : List Table) (data0 : List StatusRecord) (acc : List String)
      (d : List StatusRecord) (hs : List String),
      statusTables tables data0 acc = .ok (d, hs) →
      (∀ t ∈ tables, ∀ r0, t.head? = some r0 → (r0.td.map Cell.text).Nodup) →
      hs = (tableHeaderLists tables).foldl listUnion acc := by
  intro tables
  induction tables with
  | nil =>
    intro data0 acc d hs h hnd
    have h' : (Except.ok (data0, acc) :
        Except PyErr (List StatusRecord × List String)) = .ok (d, hs) := h
    injection h' with h'
    injection h' with h1 h2
    subst h2
    simp [tableHeaderLists]
  | cons t rest ih =>
    intro data0 acc d hs h hnd
    cases t with
    | nil =>
      have h' : (Except.error .indexError :
          Except PyErr (List StatusRecord × List String)) = .ok (d, hs) := h
      exact absurd h' (by simp)
    | cons r0 drows =>
      have hndt : (r0.td.map Cell.text).Nodup :=
        hnd _ (List.mem_cons_self _ _) r0 rfl
      have hTHL : tableHeaderLists ((r0 :: drows) :: rest) =
          (r0.td.map Cell.text) :: tableHeaderLists rest := by
        simp [tableHeaderLists]
      have h' : (if (r0.td.map Cell.text).isEmpty then
            statusTables rest data0 acc
          else
            statusTables rest
              (data0 ++ drows.filterMap
                (statusProcessRow (r0.td.map Cell.text)
                  (pyIndex (r0.td.map Cell.text) "Template")))
              (acc ++ (r0.td.map Cell.text).filter
                (fun h => !(pyMem h acc)))) = .ok (d, hs) := h
      by_cases hemp : (r0.td.map Cell.text).isEmpty
      · rw [if_pos hemp] at h'
        have heq := ih data0 acc d hs h'
          (fun t ht r0' hr0' => hnd t (List.mem_cons_of_mem _ ht) r0' hr0')
        have hhe : r0.td.map Cell.text = [] := by
          simpa using hemp
        rw [hTHL, hhe, List.foldl_cons]
        exact heq
      · rw [if_neg hemp] at h'
        have heq := ih _ _ d hs h'
          (fun t ht r0' hr0' => hnd t (List.mem_cons_of_mem _ ht) r0' hr0')
        rw [hTHL, List.foldl_cons, listUnion_eq_append_filter _ hndt acc]
        exact heq

/-- Counterexample to C8 as stated: on `c8Page` (one table, header row
`["A", "A"]`), the returned header list of `get_observation_status` is
`["A", "A"]`, which contains a duplicate — the batch merge filters against
the vocabulary as it stood before the table, so names duplicated within one
table's header row are all appended. -/
theorem status_headers_dup_cex :
    get_observation_status (fun _ => .ok c8Page) 1 = (.ret [] ["A", "A"], 1) ∧
    ¬ (["A", "A"] : List String).Nodup :=
  ⟨rfl, by decide⟩

/-- C8 (amended): each table's header names are filtered against the
vocabulary as it stood before that table's batch merge, so a name duplicated
within a single table's header row is appended multiply; provided every
table's header row is duplicate-free, the returned header list of the status
extraction is exactly the union of all tables' header names in order of
first appearance, with no duplicates. -/
theorem status_headers_union_of_nodup :
    ∀ (tables : List Table) (d : List StatusRecord) (hs : List String),
      statusExtract tables = .ok (d, hs) →
      (∀ t ∈ tables, ∀ r0, t.head? = some r0 → (r0.td.map Cell.text).Nodup) →
      hs = firstAppearanceUnion (tableHeaderLists tables) ∧ hs.Nodup := by
  intro tables d hs h hnd
  unfold statusExtract at h
  split at h
  next hemp =>
    injection h with h
    injection h with h1 h2
    subst h2
    have htab : tables = [] := by simpa using hemp
    subst htab
    exact ⟨by simp [firstAppearanceUnion, tableHeaderLists], List.nodup_nil⟩
  · have heq := statusTables_headers tables [] [] d hs h hnd
    refine ⟨heq, ?_⟩
    rw [heq]
    exact foldl_listUnion_nodup _ [] List.nodup_nil

/-- Witness for C8 (amended): two tables with overlapping duplicate-free
header rows produce the duplicate-free first-appearance union. -/
theorem status_headers_union_of_nodup_witness :
    (["A", "B", "C"] : List String) =
      firstAppearanceUnion (tableHeaderLists
        [[⟨[], [⟨"A", false⟩, ⟨"B", false⟩]⟩],
         [⟨[], [⟨"B", false⟩, ⟨"C", false⟩]⟩]]) ∧
    (["A", "B", "C"] : List String).Nodup :=
  status_headers_union_of_nodup
    [[⟨[], [⟨"A", false⟩, ⟨"B", false⟩]⟩],
     [⟨[], [⟨"B", false⟩, ⟨"C", false⟩]⟩]]
    [] ["A", "B", "C"] rfl
    (by
      intro t ht r0 hr0
      rcases List.mem_cons.mp ht with h1 | h1
      · subst h1
        injection hr0 with hr0
        subst hr0
        decide
      · rcases List.mem_cons.mp h1 with h2 | h2
        · subst h2
          injection hr0 with hr0
          subst hr0
          decide
        · simp at h2)

end JwstExtractor

namespace JwstExtractor

/-! ## Header-alias equivalence -/

lemma renameIM_eq_spaced_iff {a : String} (ha : a ≠ "Instrument/ Mode") :
    (renameIM a = "Instrument/ Mode") ↔ a = "Instrument/Mode" := by
  unfold renameIM
  split
  next h => simp [h]
  next h =>
    constructor
    · intro he
      exact absurd he ha
    · intro he
      exact absurd he h

lemma renameIM_ne_plain (a : String) : renameIM a ≠ "Instrument/Mode" := by
  unfold renameIM
  split
  · decide
  next h => exact h

lemma renameIM_eq_other_iff {t : String} (h1 : t ≠ "Instrument/ Mode")
    (h2 : t ≠ "Instrument/Mode") (a : String) :
    (renameIM a = t) ↔ a = t := by
  unfold renameIM
  split
  next hp =>
    subst hp
    constructor
    · intro he
      exact absurd he.symm h1
    · intro he
      exact absurd he.symm h2
  · exact Iff.rfl

/-- On a header list free of the spaced alias, the first occurrence of the
spaced alias after renaming is the first occurrence of the plain alias
before. -/
lemma pyIndex_map_rename_spaced :
    ∀ {hs : List String}, "Instrument/ Mode" ∉ hs →
      pyIndex (hs.map renameIM) "Instrument/ Mode" =
        pyIndex hs "Instrument/Mode"
  | [], _ => rfl
  | a :: rest, h => by
    have ha : a ≠ "Instrument/ Mode" := by
      intro he
      exact h (by rw [← he]; exact List.mem_cons_self _ _)
    have hrest : "Instrument/ Mode" ∉ rest :=
      fun hr => h (List.mem_cons_of_mem _ hr)
    rw [List.map_cons, pyIndex, pyIndex]
    by_cases hp : a = "Instrument/Mode"
    · rw [if_pos ((renameIM_eq_spaced_iff ha).mpr hp), if_pos hp]
    · rw [if_neg (fun he => hp ((renameIM_eq_spaced_iff ha).mp he)),
        if_neg hp, pyIndex_map_rename_spaced hrest]

/-- After renaming, the plain alias occurs nowhere. -/
lemma pyIndex_map_rename_plain (hs : List String) :
    pyIndex (hs.map renameIM) "Instrument/Mode" = none := by
  induction hs with
  | nil => rfl
  | cons a rest ih =>
    rw [List.map_cons, pyIndex, if_neg (renameIM_ne_plain a), ih]
    rfl

/-- Renaming does not move any other header name. -/
lemma pyIndex_map_rename_other {t : String} (h1 : t ≠ "Instrument/ Mode")
    (h2 : t ≠ "Instrument/Mode") :
    ∀ (hs : List String), pyIndex (hs.map renameIM) t = pyIndex hs t
  | [] => rfl
  | a :: rest => by
    rw [List.map_cons, pyIndex, pyIndex, pyIndex_map_rename_other h1 h2 rest]
    by_cases hp : a = t
    · rw [if_pos ((renameIM_eq_other_iff h1 h2 a).mpr hp), if_pos hp]
    · rw [if_neg (fun he => hp ((renameIM_eq_other_iff h1 h2 a).mp he)),
        if_neg hp]

/-- The GO double-negative resolution picks the same position before and
after the renaming, provided the original headers lack the spaced alias. -/
lemma resolveGO_map_rename {hs : List String}
    (hspaced : pyMem "Instrument/ Mode" hs = false) :
    resolveGO (hs.map renameIM) = resolveGO hs := by
  have hnotin : "Instrument/ Mode" ∉ hs := pyMem_eq_false_iff.mp hspaced
  have hidx : pyIndex (hs.map renameIM) "Instrument/ Mode" =
      pyIndex hs "Instrument/Mode" := pyIndex_map_rename_spaced hnotin
  have hRHS : resolveGO hs = pyIndex hs "Instrument/Mode" := by
    unfold resolveGO
    rw [hspaced]
    rfl
  rw [hRHS]
  unfold resolveGO
  unfold pyMem
  rw [hidx]
  cases hplain : pyIndex hs "Instrument/Mode" with
  | none => simp [pyIndex_map_rename_plain hs]
  | some i => rw [if_neg (by simp)]

/-- The GTO resolution picks the same position before and after the
renaming, provided the original headers lack the spaced alias. -/
lemma resolveGTO_map_rename {hs : List String}
    (hspaced : pyMem "Instrument/ Mode" hs = false) :
    resolveGTO (hs.map renameIM) = resolveGTO hs := by
  have hnotin : "Instrument/ Mode" ∉ hs := pyMem_eq_false_iff.mp hspaced
  have hidx : pyIndex (hs.map renameIM) "Instrument/ Mode" =
      pyIndex hs "Instrument/Mode" := pyIndex_map_rename_spaced hnotin
  have hRHS : resolveGTO hs = pyIndex hs "Instrument/Mode" := by
    unfold resolveGTO
    rw [hspaced]
    unfold pyMem
    cases hplain : pyIndex hs "Instrument/Mode" with
    | none =>
      rw [if_neg (by simp)]
      rfl
    | some i => simp
  rw [hRHS]
  unfold resolveGTO
  unfold pyMem
  rw [hidx, pyIndex_map_rename_plain hs]
  rw [if_neg (by simp)]
  cases hplain : pyIndex hs "Instrument/Mode" with
  | none => rw [if_neg (by simp)]
  | some i => simp

lemma pyIndex_map_rename_ar (hs : List String) :
    pyIndex (hs.map renameIM) "AR?" = pyIndex hs "AR?" :=
  pyIndex_map_rename_other (by decide) (by decide) hs

lemma goProcessRow_rename {cycle_number topic : String} {hs : List String}
    (hspaced : pyMem "Instrument/ Mode" hs = false) (r : Row) :
    goProcessRow cycle_number topic (hs.map renameIM) r =
      goProcessRow cycle_number topic hs r := by
  simp only [goProcessRow, List.length_map, resolveGO_map_rename hspaced]

lemma goRows_rename {cycle_number topic : String} {hs : List String}
    (hspaced : pyMem "Instrument/ Mode" hs = false) :
    ∀ (drows : List Row),
      goRows cycle_number topic (hs.map renameIM) drows =
        goRows cycle_number topic hs drows
  | [] => rfl
  | r :: rest => by
    rw [goRows, goRows, goProcessRow_rename hspaced r,
      goRows_rename hspaced rest]

lemma goRows_map_renameRow {cycle_number topic : String} {hs : List String} :
    ∀ (drows : List Row),
      goRows cycle_number topic hs (drows.map renameRow) =
        goRows cycle_number topic hs drows
  | [] => rfl
  | r :: rest => by
    have h1 : goProcessRow cycle_number topic hs (renameRow r) =
        goProcessRow cycle_number topic hs r := rfl
    rw [List.map_cons, goRows, goRows, h1, goRows_map_renameRow rest]

lemma gtoEmitRow_rename {hs : List String} (columns : List Cell) :
    gtoEmitRow (hs.map renameIM) columns = gtoEmitRow hs columns := by
  simp only [gtoEmitRow, pyIndex_map_rename_ar]

lemma gtoProcessRow_rename {hs : List String}
    (hspaced : pyMem "Instrument/ Mode" hs = false) (r : Row) :
    gtoProcessRow (hs.map renameIM) r = gtoProcessRow hs r := by
  simp only [gtoProcessRow, List.length_map, resolveGTO_map_rename hspaced,
    gtoEmitRow_rename]

lemma gto_filterMap_rename {hs : List String}
    (hspaced : pyMem "Instrument/ Mode" hs = false) (drows : List Row) :
    (drows.map renameRow).filterMap (gtoProcessRow (hs.map renameIM)) =
      drows.filterMap (gtoProcessRow hs) := by
  induction drows with
  | nil => rfl
  | cons r rest ih =>
    rw [List.map_cons, List.filterMap_cons, List.filterMap_cons]
    have h1 : gtoProcessRow (hs.map renameIM) (renameRow r) =
        gtoProcessRow hs r := by
      have h2 : gtoProcessRow (hs.map renameIM) (renameRow r) =
          gtoProcessRow (hs.map renameIM) r := rfl
      rw [h2, gtoProcessRow_rename hspaced r]
    rw [h1, ih]

/-- The GO loop commutes with the renaming of all header cells, provided no
table mentions the spaced alias and the carried header state (if set) lacks
it. -/
lemma goLoop_rename (cycle_number : String) :
    ∀ (l : List (String × Table)) (data : List (List String))
      (headers : Option (List String)),
      (∀ p ∈ l, ∀ r ∈ p.2, pyMem "Instrument/ Mode" r.th = false) →
      (∀ hs, headers = some hs → pyMem "Instrument/ Mode" hs = false) →
      goLoop cycle_number (l.map (fun p => (p.1, renameTable p.2))) data
          (headers.map (List.map renameIM)) =
        mapHdrsGO renameIM (goLoop cycle_number l data headers)
  | [], data, headers, _, _ => by cases headers <;> rfl
  | (topic, table) :: rest, data, headers, hl, hh => by
    cases table with
    | nil =>
      exact goLoop_rename cycle_number rest data headers
        (fun p hp => hl p (List.mem_cons_of_mem _ hp)) hh
    | cons r0 drows =>
      have hr0 : pyMem "Instrument/ Mode" r0.th = false :=
        hl (topic, r0 :: drows) (List.mem_cons_self _ _) r0
          (List.mem_cons_self _ _)
      have hhs : pyMem "Instrument/ Mode" (headers.getD r0.th) = false := by
        cases headers with
        | none => exact hr0
        | some hs0 => exact hh hs0 rfl
      have hgd : (headers.map (List.map renameIM)).getD (r0.th.map renameIM) =
          (headers.getD r0.th).map renameIM := by
        cases headers <;> rfl
      have hL : goLoop cycle_number
          (((topic, r0 :: drows) :: rest).map (fun p => (p.1, renameTable p.2)))
          data (headers.map (List.map renameIM)) =
          (match goRows cycle_number topic
              ((headers.map (List.map renameIM)).getD (r0.th.map renameIM))
              (drows.map renameRow) with
           | .error e =>
             (.error e : Except PyErr (List (List String) × Option (List String)))
           | .ok newrows =>
             goLoop cycle_number
               (rest.map (fun p => (p.1, renameTable p.2)))
               (data ++ newrows)
               (some ((headers.map (List.map renameIM)).getD
                 (r0.th.map renameIM)))) := rfl
      rw [hL, hgd, goRows_map_renameRow, goRows_rename hhs]
      have hR : mapHdrsGO renameIM
          (goLoop cycle_number ((topic, r0 :: drows) :: rest) data headers) =
          mapHdrsGO renameIM
            (match goRows cycle_number topic (headers.getD r0.th) drows with
             | .error e =>
               (.error e :
                 Except PyErr (List (List String) × Option (List String)))
             | .ok newrows =>
               goLoop cycle_number rest (data ++ newrows)
                 (some (headers.getD r0.th))) := rfl
      rw [hR]
      cases hrows : goRows cycle_number topic (headers.getD r0.th) drows with
      | error e => rfl
      | ok newrows =>
        exact goLoop_rename cycle_number rest (data ++ newrows)
          (some (headers.getD r0.th))
          (fun p hp => hl p (List.mem_cons_of_mem _ hp))
          (fun hs h => by
            injection h with h
            subst h
            exact hhs)

/-- The GTO loop commutes with the renaming of all header cells (analogue of
`goLoop_rename`). -/
lemma gtoLoop_rename :
    ∀ (l : List Table) (data : List (List String))
      (headers : Option (List String)),
      (∀ t ∈ l, ∀ r ∈ t, pyMem "Instrument/ Mode" r.th = false) →
      (∀ hs, headers = some hs → pyMem "Instrument/ Mode" hs = false) →
      gtoLoop (l.map renameTable) data (headers.map (List.map renameIM)) =
        mapHdrsPair renameIM (gtoLoop l data headers)
  | [], data, headers, _, _ => by cases headers <;> rfl
  | table :: rest, data, headers, hl, hh => by
    cases table with
    | nil =>
      exact gtoLoop_rename rest data headers
        (fun t ht => hl t (List.mem_cons_of_mem _ ht)) hh
    | cons r0 drows =>
      have hr0 : pyMem "Instrument/ Mode" r0.th = false :=
        hl (r0 :: drows) (List.mem_cons_self _ _) r0 (List.mem_cons_self _ _)
      have hhs : pyMem "Instrument/ Mode" (headers.getD r0.th) = false := by
        cases headers with
        | none => exact hr0
        | some hs0 => exact hh hs0 rfl
      have hgd : (headers.map (List.map renameIM)).getD (r0.th.map renameIM) =
          (headers.getD r0.th).map renameIM := by
        cases headers <;> rfl
      have hL : gtoLoop (((r0 :: drows) :: rest).map renameTable) data
          (headers.map (List.map renameIM)) =
          gtoLoop (rest.map renameTable)
            (data ++ (drows.map renameRow).filterMap
              (gtoProcessRow ((headers.map (List.map renameIM)).getD
                (r0.th.map renameIM))))
            (some ((headers.map (List.map renameIM)).getD
              (r0.th.map renameIM))) := rfl
      rw [hL, hgd, gto_filterMap_rename hhs drows]
      have hR : mapHdrsPair renameIM (gtoLoop ((r0 :: drows) :: rest) data headers) =
          mapHdrsPair renameIM (gtoLoop rest
            (data ++ drows.filterMap (gtoProcessRow (headers.getD r0.th)))
            (some (headers.getD r0.th))) := rfl
      rw [hR]
      exact gtoLoop_rename rest
        (data ++ drows.filterMap (gtoProcessRow (headers.getD r0.th)))
        (some (headers.getD r0.th))
        (fun t ht => hl t (List.mem_cons_of_mem _ ht))
        (fun hs h => by
          injection h with h
          subst h
          exact hhs)

/-- C4: for a GO/GTO page that names the instrument column
`"Instrument/Mode"` (the spaced alias `"Instrument/ Mode"` appears in no
header row), renaming that column to `"Instrument/ Mode"` everywhere yields
identical extraction results — the same data rows with the same emitted cell
texts — with the returned header list differing only by the renamed name. -/
theorem header_alias_equivalence :
    ∀ (topics : List String) (tables : List Table) (cycle_number : String),
      (∀ t ∈ tables, ∀ r ∈ t, pyMem "Instrument/ Mode" r.th = false) →
      extract_basic_info_from_GO topics (tables.map renameTable)
          cycle_number =
        mapHdrsGO renameIM
          (extract_basic_info_from_GO topics tables cycle_number) ∧
      extract_basic_info_from_GTO (tables.map renameTable) =
        mapHdrsPair renameIM (extract_basic_info_from_GTO tables) := by
  intro topics tables cycle_number hta
  constructor
  · unfold extract_basic_info_from_GO
    have hzip : topics.zip (tables.map renameTable) =
        (topics.zip tables).map (fun p => (p.1, renameTable p.2)) := by
      rw [List.zip_map_right]
      rfl
    rw [hzip]
    exact goLoop_rename cycle_number (topics.zip tables) [] none
      (fun p hp r hr => by
        obtain ⟨a, b⟩ := p
        exact hta b (List.of_mem_zip hp).2 r hr)
      (fun hs h => nomatch h)
  · exact gtoLoop_rename tables [] none hta (fun hs h => nomatch h)

/-- Witness for C4: a concrete one-table page using the plain alias. -/
theorem header_alias_equivalence_witness :
    extract_basic_info_from_GO ["T"]
      (([[⟨["Instrument/Mode", "ID"], []⟩,
          ⟨[], [⟨"NIRSpec/MOS", false⟩, ⟨"x", false⟩]⟩]] : List Table).map
        renameTable) "C" =
      mapHdrsGO renameIM
        (extract_basic_info_from_GO ["T"]
          [[⟨["Instrument/Mode", "ID"], []⟩,
            ⟨[], [⟨"NIRSpec/MOS", false⟩, ⟨"x", false⟩]⟩]] "C") ∧
    extract_basic_info_from_GTO
      (([[⟨["Instrument/Mode", "ID"], []⟩,
          ⟨[], [⟨"NIRSpec/MOS", false⟩, ⟨"x", false⟩]⟩]] : List Table).map
        renameTable) =
      mapHdrsPair renameIM
        (extract_basic_info_from_GTO
          [[⟨["Instrument/Mode", "ID"], []⟩,
            ⟨[], [⟨"NIRSpec/MOS", false⟩, ⟨"x", false⟩]⟩]]) :=
  header_alias_equivalence ["T"]
    [[⟨["Instrument/Mode", "ID"], []⟩,
      ⟨[], [⟨"NIRSpec/MOS", false⟩, ⟨"x", false⟩]⟩]] "C" (by decide)

end JwstExtractor
